import Mathlib

set_option maxRecDepth 40000

/-!
Verification of the d-pad spatial-navigation controller
(`app/scripts/focus-controller.js`).

The JavaScript source is shallowly embedded below.  Coordinates coming from
`getBoundingClientRect` are modelled as rationals (`ℚ`); the only irrational
operation in the source, `Math.floor(Math.sqrt(q))`, is modelled exactly by
`Nat.sqrt ⌊q⌋` (for `0 ≤ q` these agree with the real `⌊√q⌋`, proved below in
`calcDistance_eq_floor_sqrt`).  The angle gate compares
`Math.atan(a / b) * 180 / Math.PI` against `0` and `180`; since `atan` is
strictly monotone with range `(-90°, 90°)`, `atan(x) ≥ 0 ↔ x ≥ 0` and
`atan(x) ≤ 180°` always — including IEEE division by zero (`±Infinity`, whose
arctangent is `±90°`) and `0/0 = NaN` (every comparison with `NaN` is false).
The comparisons are encoded by `atanDegNonneg` / `atanDegLe180` on a JS-number
type that keeps the infinities and `NaN` explicit.  Floating-point `atan`
preserves the sign of its argument and stays strictly below `90°`, so the
encoded comparison outcomes coincide with the double-precision ones.
-/

/-- An axis-aligned rectangle as returned by `getBoundingClientRect`
(`left`, `top`, `width`, `height`). -/
structure Rect where
  left : ℚ
  top : ℚ
  width : ℚ
  height : ℚ
deriving DecidableEq

/-- The metrics record built by `FocusController.prototype.getItemMetrics`. -/
structure Metrics where
  width : ℚ
  height : ℚ
  left : ℚ
  right : ℚ
  top : ℚ
  bottom : ℚ
  cx : ℚ
  cy : ℚ
deriving DecidableEq

/-- Source `FocusController.prototype.getItemMetrics` (lines 599-617):
derives edges and center from the client rectangle. -/
def getItemMetrics (r : Rect) : Metrics :=
  { width := r.width
    height := r.height
    left := r.left
    right := r.left + r.width
    top := r.top
    bottom := r.top + r.height
    cx := r.left + r.width / 2
    cy := r.top + r.height / 2 }

/-- Source `this.calcDistance` (lines 175-177): `Math.floor(Math.sqrt(x*x + y*y))`.
For a nonnegative rational radicand this equals `Nat.sqrt` of its floor
(see `calcDistance_eq_floor_sqrt`). -/
def calcDistance (x y : ℚ) : ℕ :=
  Nat.sqrt (x * x + y * y).floor.toNat

/-- A JS number that may be an infinity or `NaN` (results of `a / 0`). -/
inductive JSNum where
  | num (q : ℚ)
  | posInf
  | negInf
  | nan
deriving DecidableEq

/-- IEEE-754 division as JavaScript performs it on finite operands. -/
def jsDiv (x y : ℚ) : JSNum :=
  if y = 0 then
    if 0 < x then .posInf
    else if x < 0 then .negInf
    else .nan
  else .num (x / y)

/-- Outcome of the JS comparison `Math.atan(v) * (180 / Math.PI) >= 0`.
`atan` is odd and strictly monotone, `atan(±∞) = ±90°`, and any comparison
with `NaN` is false. -/
def atanDegNonneg : JSNum → Bool
  | .num q => decide (0 ≤ q)
  | .posInf => true
  | .negInf => false
  | .nan => false

/-- Outcome of the JS comparison `Math.atan(v) * (180 / Math.PI) <= 180`:
true for every real argument (the range of `atan` is within `±90°`) and for
`±Infinity`; false only for `NaN`. -/
def atanDegLe180 : JSNum → Bool
  | .num _ => true
  | .posInf => true
  | .negInf => true
  | .nan => false

/-- The shared shape of the four angle gates: with `x` the forward offset and
`a`, `b` the two lateral offsets, the source computes
`angleA = atan(x / a) * 180 / π`, `angleB = atan(x / b) * 180 / π` and
requires `angleA >= 0 && angleB <= 180`. -/
def angleGate (x a b : ℚ) : Bool :=
  atanDegNonneg (jsDiv x a) && atanDegLe180 (jsDiv x b)

/-- Source `FocusController.prototype.getTopDistance` (lines 429-462).
`distance.left`/`distance.right` are always assigned, so of the source's
three-way null check only the `distance.y` test can fire. -/
def getTopDistance (fromMetrics toMetrics : Metrics) : Option ℕ :=
  let dy : Option ℚ :=
    if toMetrics.bottom ≤ fromMetrics.top then some (fromMetrics.cy - toMetrics.cy) else none
  let dLeft : ℚ := |fromMetrics.cx - toMetrics.left|
  let dRight : ℚ := |fromMetrics.cx - toMetrics.right|
  let dx : ℚ := min (|fromMetrics.cx - toMetrics.left|)
      (min (|fromMetrics.cx - toMetrics.cx|) (|fromMetrics.cx - toMetrics.right|))
  match dy with
  | none => none
  | some dyv =>
    if angleGate dyv dLeft dRight then some (calcDistance dx dyv) else none

/-- Source `FocusController.prototype.getBottomDistance` (lines 472-506). -/
def getBottomDistance (fromMetrics toMetrics : Metrics) : Option ℕ :=
  let dy : Option ℚ :=
    if fromMetrics.bottom ≤ toMetrics.top then some (toMetrics.cy - fromMetrics.cy) else none
  let dLeft : ℚ := |fromMetrics.cx - toMetrics.left|
  let dRight : ℚ := |fromMetrics.cx - toMetrics.right|
  let dx : ℚ := min (|fromMetrics.cx - toMetrics.left|)
      (min (|fromMetrics.cx - toMetrics.cx|) (|fromMetrics.cx - toMetrics.right|))
  match dy with
  | none => none
  | some dyv =>
    if angleGate dyv dLeft dRight then some (calcDistance dx dyv) else none

/-- Source `FocusController.prototype.getLeftDistance` (lines 516-549).
The lateral minimum is unweighted here. -/
def getLeftDistance (fromMetrics toMetrics : Metrics) : Option ℕ :=
  let dx : Option ℚ :=
    if toMetrics.right ≤ fromMetrics.left then some (fromMetrics.cx - toMetrics.cx) else none
  let dTop : ℚ := |fromMetrics.cy - toMetrics.top|
  let dBottom : ℚ := |fromMetrics.cy - toMetrics.bottom|
  let dy : ℚ := min (|fromMetrics.cy - toMetrics.top|)
      (min (|fromMetrics.cy - toMetrics.cy|) (|fromMetrics.cy - toMetrics.bottom|))
  match dx with
  | none => none
  | some dxv =>
    if angleGate dxv dTop dBottom then some (calcDistance dxv dy) else none

/-- Source `FocusController.prototype.getRightDistance` (lines 559-591).
The lateral minimum is multiplied by `2` (only in this direction). -/
def getRightDistance (fromMetrics toMetrics : Metrics) : Option ℕ :=
  let dx : Option ℚ :=
    if fromMetrics.right ≤ toMetrics.left then some (toMetrics.cx - fromMetrics.cx) else none
  let dTop : ℚ := |fromMetrics.cy - toMetrics.top|
  let dBottom : ℚ := |fromMetrics.cy - toMetrics.bottom|
  let dy : ℚ := (min (|fromMetrics.cy - toMetrics.top|)
      (min (|fromMetrics.cy - toMetrics.cy|) (|fromMetrics.cy - toMetrics.bottom|))) * 2
  match dx with
  | none => none
  | some dxv =>
    if angleGate dxv dTop dBottom then some (calcDistance dxv dy) else none

/-- The data the controller reads from a DOM element: its identity, its live
client rectangle, the two style properties tested by `isFocusable`, and the
`tabindex` attribute (`none` models a missing attribute; the attribute string
is modelled by its numeric value). -/
structure Element where
  id : ℕ
  rect : Rect
  displayNone : Bool
  visibilityHidden : Bool
  tabIndex : Option ℤ
deriving DecidableEq

/-- Source `FocusController.prototype.isFocusable` (lines 409-419). -/
def isFocusable (e : Element) : Bool :=
  if e.displayNone || e.visibilityHidden then false
  else decide ((e.tabIndex.getD (-1)) > -1)

/-- Modelled from the spec: the `FocusableItem` class is not part of this
source file; per the spec's data model it exposes a stable identity, a
queryable rectangle and an eligibility flag (all carried by `elem`), plus
four optional neighbor indices mutated exclusively by the graph build and
initially absent. -/
structure FocusableItem where
  elem : Element
  topIndex : Option ℕ := none
  bottomIndex : Option ℕ := none
  leftIndex : Option ℕ := none
  rightIndex : Option ℕ := none
deriving DecidableEq

/-- The mutable state of a `FocusController`: the `focusableItems` array, the
`currentlyFocusedItem` reference (`none` = JS `null`, otherwise the element id
of the focused item; reference identity is element identity because no two
registrations alias the same element), and the trace of element ids on which
`.focus()` was called — the focus-changed notifications observed by the
collaborator.  `debugMode` stays `false`: it only gates the DOM debug overlay
and console logging, which never influence the graph. -/
structure CState where
  items : List FocusableItem
  focused : Option ℕ
  trace : List ℕ
deriving DecidableEq

/-- A JavaScript return value that is either `undefined` or a boolean. -/
inductive JSVal where
  | undef
  | bool (b : Bool)
deriving DecidableEq

/-- A direction vector as passed to `moveFocus`. -/
structure Direction where
  x : ℤ
  y : ℤ
deriving DecidableEq

/-- Source `this.isFocusableItem` (lines 34-41): linear scan comparing with
`===` (element identity). -/
def isFocusableItemFn (s : CState) (item : FocusableItem) : Bool :=
  s.items.any (fun it => it.elem.id == item.elem.id)

/-- Source `this.pushFocusableItem` (lines 48-54): appends and returns the new
index.  (The focus listener it installs is what records ids in `trace` when an
element receives focus.) -/
def pushFocusableItem (s : CState) (item : FocusableItem) : CState × ℕ :=
  ({ s with items := s.items ++ [item] }, s.items.length)

/-- Source `FocusController.prototype.addFocusableItem` (lines 195-203).
Both the early-exit path and the push path end in a bare `return`, so the JS
return value is `undefined` on both. -/
def addFocusableItem (s : CState) (item : FocusableItem) : CState × JSVal :=
  if isFocusableItemFn s item then (s, .undef)
  else ((pushFocusableItem s item).1, .undef)

/-- Source `this.getFocusableItemCount` (lines 81-83). -/
def getFocusableItemCount (s : CState) : ℕ :=
  s.items.length

/-- Source `this.getFocusableItem` (lines 89-95): `null` when
`index >= focusableItems.length`.  The index is modelled as a natural number;
a negative JS index would read `undefined` from the array, which is outside
this model. -/
def getFocusableItem (s : CState) (index : ℕ) : Option FocusableItem :=
  if index ≥ s.items.length then none
  else s.items.get? index

/-- Source `this.setCurrentFocusItem` (lines 115-121): unconditionally
overwrites `currentlyFocusedItem` with the lookup result (possibly `null`),
and only when it is non-null calls `.focus()` on its element — which both
emits the focus-changed notification and re-confirms the item via the focus
listener. -/
def setCurrentFocusItem (s : CState) (itemIndex : ℕ) : CState :=
  match getFocusableItem s itemIndex with
  | none => { s with focused := none }
  | some it => { s with focused := some it.elem.id, trace := s.trace ++ [it.elem.id] }

/-- Source `this.moveFocus` (lines 128-157).  Note that it consults the
neighbor indices stored on the focused item and never rebuilds the graph.
The inner `none` branch on the item lookup covers a dangling
`currentlyFocusedItem` reference (an object no longer in the array); no state
considered in the theorems below reaches it. -/
def moveFocus (s : CState) (direction : Direction) : CState :=
  match s.focused with
  | none => s
  | some fid =>
    match s.items.find? (fun it => it.elem.id == fid) with
    | none => s
    | some cur =>
      let nextItemIndex : Option ℕ :=
        if direction.y = 0 then
          if direction.x > 0 then cur.rightIndex else cur.leftIndex
        else if direction.x = 0 then
          if direction.y > 0 then cur.topIndex else cur.bottomIndex
        else none
      match nextItemIndex with
      | none => s
      | some idx => setCurrentFocusItem s idx

/-- One update step of the shared scan in `updateNodeEdges` (source lines
383-405): the accumulator is `(min-distance-so-far, neighbor-field)`, the
minimum starts out `undefined` (`none`) and is replaced exactly when the
candidate distance is non-null and strictly smaller (`min > distance`). -/
def upd1 (d : Option ℕ) (i : ℕ) (p : Option ℕ × Option ℕ) : Option ℕ × Option ℕ :=
  match d with
  | none => p
  | some dv =>
    match p.1 with
    | none => (some dv, some i)
    | some m => if dv < m then (some dv, some i) else p

/-- The per-direction scan of `updateNodeEdges`: fold `upd1` over the
candidate list, starting from an undefined minimum and the field's current
(old) value. -/
def scanDir {α : Type} (dist : α → Option ℕ) (cands : List (ℕ × α)) (old : Option ℕ) :
    Option ℕ × Option ℕ :=
  cands.foldl (fun p c => upd1 (dist c.2) c.1 p) (none, old)

/-- The elements of the controller's items, in array order. -/
def elemsOf (s : CState) : List Element :=
  s.items.map (fun it => it.elem)

/-- The candidates considered by the loop of `updateNodeEdges` (source lines
361-367): every index whose element is focusable and is not the current item
itself (the `===` test, decided by element identity). -/
def candElems (elems : List Element) (curId : ℕ) : List (ℕ × Element) :=
  elems.enum.filter (fun p => isFocusable p.2 && p.2.id != curId)

/-- The effect of `updateNodeEdges` on the current item: each of the four
neighbor fields is driven by its own (min, field) pair through the single
candidate loop; the four pairs are updated independently, so the loop is four
independent `scanDir` passes over the same candidate sequence. -/
def nodeUpdate (elems : List Element) (cur : FocusableItem) : FocusableItem :=
  let cm := getItemMetrics cur.elem.rect
  let cands := candElems elems cur.elem.id
  { cur with
    topIndex := (scanDir (fun e => getTopDistance cm (getItemMetrics e.rect)) cands cur.topIndex).2
    bottomIndex :=
      (scanDir (fun e => getBottomDistance cm (getItemMetrics e.rect)) cands cur.bottomIndex).2
    leftIndex :=
      (scanDir (fun e => getLeftDistance cm (getItemMetrics e.rect)) cands cur.leftIndex).2
    rightIndex :=
      (scanDir (fun e => getRightDistance cm (getItemMetrics e.rect)) cands cur.rightIndex).2 }

/-- Source `FocusController.prototype.updateNodeEdges` (lines 342-407).
The source is only ever called with a valid index; an invalid index is a
no-op here. -/
def updateNodeEdges (s : CState) (currentIndex : ℕ) : CState :=
  match s.items.get? currentIndex with
  | none => s
  | some cur => { s with items := s.items.set currentIndex (nodeUpdate (elemsOf s) cur) }

/-- One iteration of the loop in `updateFocusGraph` (source lines 216-228):
skip the item if its element cannot be focused, otherwise update its edges.
(`printDebugLinesForNode` is debug-mode-only DOM output and is not modelled.) -/
def buildStep (st : CState) (i : ℕ) : CState :=
  match getFocusableItem st i with
  | none => st
  | some it => if isFocusable it.elem then updateNodeEdges st i else st

/-- Source `FocusController.prototype.updateFocusGraph` (lines 210-229).
`clearDebugLines` only removes DOM overlay nodes and is not modelled. -/
def updateFocusGraph (s : CState) : CState :=
  (List.range s.items.length).foldl buildStep s

/-- The four directions of the navigation graph. -/
inductive Dir where
  | top
  | bottom
  | left
  | right
deriving DecidableEq

/-- The per-direction distance function. -/
def dirDist : Dir → Metrics → Metrics → Option ℕ
  | .top => getTopDistance
  | .bottom => getBottomDistance
  | .left => getLeftDistance
  | .right => getRightDistance

/-- The per-direction neighbor field of an item. -/
def nbField : Dir → FocusableItem → Option ℕ
  | .top => fun it => it.topIndex
  | .bottom => fun it => it.bottomIndex
  | .left => fun it => it.leftIndex
  | .right => fun it => it.rightIndex

/-- The neighbor field of the item at `i` (wrapped in the lookup's `Option`). -/
def nbAt (s : CState) (i : ℕ) (d : Dir) : Option (Option ℕ) :=
  (s.items.get? i).map (nbField d)

/-- Modelled from the spec for comparison with the source's `moveFocus`:
"rebuilds the navigation graph …, looks up the chosen neighbor of the
currently focused item in that direction, and if one exists, calls `setFocus`
on it". -/
def moveFocusRebuildSpec (s : CState) (direction : Direction) : CState :=
  moveFocus (updateFocusGraph s) direction

/-- Replace every item's rectangle according to its element identity, leaving
registration, eligibility, neighbor fields, focus and trace untouched: an
arbitrary re-layout between two operations. -/
def setAllRects (s : CState) (f : ℕ → Rect) : CState :=
  { s with items := s.items.map (fun it => { it with elem := { it.elem with rect := f it.elem.id } }) }

/-- The per-item effect of a full graph build (source lines 216-228): items
whose element is focusable get their edges updated, the rest are untouched. -/
def updItem (elems : List Element) (it : FocusableItem) : FocusableItem :=
  if isFocusable it.elem then nodeUpdate elems it else it

/-! ### Concrete fixtures used by the claim instances -/

def exRectA : Rect := ⟨0, 0, 10, 10⟩

def exRectB : Rect := ⟨20, 0, 10, 10⟩

def exRectC : Rect := ⟨100, 0, 10, 10⟩

def exElemA : Element := ⟨0, exRectA, false, false, some 0⟩

def exElemB : Element := ⟨1, exRectB, false, false, some 0⟩

def exElemC : Element := ⟨2, exRectC, false, false, some 0⟩

def exItemA : FocusableItem := { elem := exElemA }

def exItemB : FocusableItem := { elem := exElemB }

def exItemC : FocusableItem := { elem := exElemC }

def c2state : CState := { items := [exItemA], focused := some 0, trace := [] }

def c3empty : CState := { items := [], focused := none, trace := [] }

def c4state : CState := { items := [exItemA, exItemB], focused := none, trace := [] }

def c7state0 : CState := { items := [exItemA, exItemB], focused := none, trace := [] }

def c7rectB2 : Rect := ⟨5, 0, 10, 10⟩

/-- The session after a first build (A.right = B) followed by a re-layout that
moves B to overlap A, so that every per-pair distance A→B is null. -/
def c7moved : CState :=
  setAllRects (updateFocusGraph c7state0) (fun i => if i == 1 then c7rectB2 else exRectA)

def c7after : CState := updateFocusGraph c7moved

def c7curA : FocusableItem := { elem := exElemA, rightIndex := some 1 }

def c6zero : Rect := ⟨0, 0, 0, 0⟩

def c1RectA : Rect := ⟨0, 0, 2, 2⟩

def c1RectB : Rect := ⟨4, 0, 2, 2⟩

def c1RectC : Rect := ⟨8, 0, 2, 2⟩

def c1state : CState :=
  { items := [{ elem := ⟨0, c1RectA, false, false, some 0⟩, rightIndex := some 2 },
      { elem := ⟨1, c1RectB, false, false, some 0⟩ },
      { elem := ⟨2, c1RectC, false, false, some 0⟩ }],
    focused := some 0, trace := [] }

/-! ### The first-minimum selection underlying `scanDir` -/

/-- The first minimum of `dist` over a candidate list: index and distance of
the earliest candidate attaining the least non-null distance. -/
def firstMinD {α : Type} (dist : α → Option ℕ) : List (ℕ × α) → Option (ℕ × ℕ)
  | [] => none
  | c :: cs =>
    match dist c.2, firstMinD dist cs with
    | none, r => r
    | some d, none => some (c.1, d)
    | some d, some jm => if d ≤ jm.2 then some (c.1, d) else some jm

/-- Merge a running `(min, field)` accumulator with the first minimum of the
remaining candidates: the remaining minimum takes over exactly when it is
strictly smaller than the running one. -/
def mergeAcc : Option ℕ × Option ℕ → Option (ℕ × ℕ) → Option ℕ × Option ℕ
  | p, none => p
  | (none, _), some jm => (some jm.2, some jm.1)
  | (some m, f), some jm => if jm.2 < m then (some jm.2, some jm.1) else (some m, f)

theorem scan_merge {α : Type} (dist : α → Option ℕ) (cands : List (ℕ × α))
    (p : Option ℕ × Option ℕ) :
    cands.foldl (fun p c => upd1 (dist c.2) c.1 p) p = mergeAcc p (firstMinD dist cands) := by
  induction cands generalizing p with
  | nil => simp [firstMinD, mergeAcc]
  | cons c cs ih =>
    simp only [List.foldl_cons]
    rw [ih]
    cases hdc : dist c.2 with
    | none => simp [upd1, firstMinD, hdc]
    | some d =>
      obtain ⟨p1, p2⟩ := p
      cases hfm : firstMinD dist cs with
      | none =>
        cases p1 with
        | none => simp [upd1, firstMinD, hdc, hfm, mergeAcc]
        | some m0 =>
          by_cases h1 : d < m0 <;>
            simp [upd1, firstMinD, hdc, hfm, mergeAcc, h1]
      | some jm =>
        obtain ⟨j, m⟩ := jm
        cases p1 with
        | none =>
          by_cases h2 : d ≤ m <;>
            simp only [upd1, firstMinD, hdc, hfm, mergeAcc, if_pos, if_neg, h2, ite_true,
              ite_false, if_true, if_false, eq_self_iff_true] <;>
            split_ifs <;> first | rfl | omega
        | some m0 =>
          by_cases h1 : d < m0 <;> by_cases h2 : d ≤ m <;>
            simp only [upd1, firstMinD, hdc, hfm, mergeAcc, h1, h2, ite_true, ite_false] <;>
            split_ifs <;> first | rfl | omega

theorem scanDir_eq {α : Type} (dist : α → Option ℕ) (cands : List (ℕ × α)) (old : Option ℕ) :
    scanDir dist cands old = mergeAcc (none, old) (firstMinD dist cands) :=
  scan_merge dist cands (none, old)

theorem scanDir_snd {α : Type} (dist : α → Option ℕ) (cands : List (ℕ × α)) (old : Option ℕ) :
    (scanDir dist cands old).2 =
      match firstMinD dist cands with
      | none => old
      | some jm => some jm.1 := by
  rw [scanDir_eq]
  cases firstMinD dist cands <;> rfl

theorem scan_idem {α : Type} (dist : α → Option ℕ) (cands : List (ℕ × α)) (old : Option ℕ) :
    (scanDir dist cands (scanDir dist cands old).2).2 = (scanDir dist cands old).2 := by
  have h1 := scanDir_snd dist cands old
  have h2 := scanDir_snd dist cands (scanDir dist cands old).2
  rw [h2, h1]
  cases firstMinD dist cands <;> rfl

theorem firstMinD_eq_none_iff {α : Type} (dist : α → Option ℕ) (cands : List (ℕ × α)) :
    firstMinD dist cands = none ↔ ∀ c ∈ cands, dist c.2 = none := by
  induction cands with
  | nil => simp [firstMinD]
  | cons c cs ih =>
    cases hdc : dist c.2 with
    | none =>
      simp only [firstMinD, hdc, List.mem_cons]
      rw [ih]
      constructor
      · intro h q hq'
        rcases hq' with rfl | hq
        · exact hdc
        · exact h q hq
      · intro h q hq
        exact h q (Or.inr hq)
    | some d =>
      simp only [firstMinD, hdc]
      constructor
      · intro h
        cases hfm : firstMinD dist cs <;> simp [hfm] at h
        split at h <;> simp at h
      · intro h
        have := h c (List.mem_cons_self c cs)
        simp [hdc] at this

theorem firstMinD_spec {α : Type} (dist : α → Option ℕ) (cands : List (ℕ × α)) :
    ∀ (j d : ℕ), firstMinD dist cands = some (j, d) →
    ∃ e pre suf, cands = pre ++ (j, e) :: suf ∧ dist e = some d ∧
      (∀ q ∈ pre, ∀ dq, dist q.2 = some dq → d < dq) ∧
      (∀ q ∈ cands, ∀ dq, dist q.2 = some dq → d ≤ dq) := by
  induction cands with
  | nil => intro j d h; simp [firstMinD] at h
  | cons c cs ih =>
    intro j d h
    cases hdc : dist c.2 with
    | none =>
      simp only [firstMinD, hdc] at h
      obtain ⟨e, pre, suf, hsplit, hde, hpre, hmin⟩ := ih j d h
      refine ⟨e, c :: pre, suf, by simp [hsplit], hde, ?_, ?_⟩
      · intro q hq' dq hdq
        rcases List.mem_cons.mp hq' with rfl | hq
        · rw [hdc] at hdq; exact absurd hdq (by simp)
        · exact hpre q hq dq hdq
      · intro q hq' dq hdq
        rcases List.mem_cons.mp hq' with rfl | hq
        · rw [hdc] at hdq; exact absurd hdq (by simp)
        · exact hmin q hq dq hdq
    | some dc =>
      cases hfm : firstMinD dist cs with
      | none =>
        simp only [firstMinD, hdc, hfm] at h
        injection h with h'
        have h1 : c.1 = j := congrArg Prod.fst h'
        have h2 : dc = d := congrArg Prod.snd h'
        subst h1
        subst h2
        refine ⟨c.2, [], cs, by simp, hdc, by simp, ?_⟩
        intro q hq' dq hdq
        rcases List.mem_cons.mp hq' with rfl | hq
        · rw [hdc] at hdq
          simp at hdq
          omega
        · have := (firstMinD_eq_none_iff dist cs).mp hfm q hq
          rw [this] at hdq
          exact absurd hdq (by simp)
      | some jm =>
        obtain ⟨j', m⟩ := jm
        simp only [firstMinD, hdc, hfm] at h
        by_cases hle : dc ≤ m
        · rw [if_pos hle] at h
          injection h with h'
          have h1 : c.1 = j := congrArg Prod.fst h'
          have h2 : dc = d := congrArg Prod.snd h'
          subst h1
          subst h2
          obtain ⟨e', pre', suf', hsplit', hde', hpre', hmin'⟩ := ih j' m hfm
          refine ⟨c.2, [], cs, by simp, hdc, by simp, ?_⟩
          intro q hq' dq hdq
          rcases List.mem_cons.mp hq' with rfl | hq
          · rw [hdc] at hdq
            simp at hdq
            omega
          · have := hmin' q hq dq hdq
            omega
        · rw [if_neg hle] at h
          injection h with h'
          have h1 : j' = j := congrArg Prod.fst h'
          have h2 : m = d := congrArg Prod.snd h'
          subst h1
          subst h2
          obtain ⟨e', pre', suf', hsplit', hde', hpre', hmin'⟩ := ih j' m hfm
          refine ⟨e', c :: pre', suf', by simp [hsplit'], hde', ?_, ?_⟩
          · intro q hq' dq hdq
            rcases List.mem_cons.mp hq' with rfl | hq
            · rw [hdc] at hdq
              simp at hdq
              omega
            · exact hpre' q hq dq hdq
          · intro q hq' dq hdq
            rcases List.mem_cons.mp hq' with rfl | hq
            · rw [hdc] at hdq
              simp at hdq
              omega
            · exact hmin' q hq dq hdq

/-! ### List helpers and structural facts about the build -/

theorem list_set_get?_eq {α : Type} (l : List α) (i : ℕ) (a : α) (h : l.get? i = some a) :
    l.set i a = l := by
  induction l generalizing i with
  | nil => simp at h
  | cons x xs ih =>
    cases i with
    | zero =>
      simp at h
      simp [h]
    | succ n =>
      simp only [List.set]
      rw [ih n (by simpa using h)]

theorem list_set_append_len {α : Type} (A : List α) (b v : α) (C : List α) :
    (A ++ b :: C).set A.length v = A ++ v :: C := by
  induction A with
  | nil => rfl
  | cons a A ih =>
    show a :: (A ++ b :: C).set A.length v = a :: (A ++ v :: C)
    rw [ih]

theorem elem_nodeUpdate (E : List Element) (it : FocusableItem) :
    (nodeUpdate E it).elem = it.elem := rfl

theorem elem_updItem (E : List Element) (it : FocusableItem) :
    (updItem E it).elem = it.elem := by
  unfold updItem
  split <;> rfl

theorem nbField_nodeUpdate (d : Dir) (E : List Element) (cur : FocusableItem) :
    nbField d (nodeUpdate E cur) =
      (scanDir (fun e => dirDist d (getItemMetrics cur.elem.rect) (getItemMetrics e.rect))
        (candElems E cur.elem.id) (nbField d cur)).2 := by
  cases d <;> rfl

theorem elemsOf_updateNodeEdges (s : CState) (i : ℕ) :
    elemsOf (updateNodeEdges s i) = elemsOf s := by
  unfold updateNodeEdges
  cases h : s.items.get? i with
  | none => rfl
  | some cur =>
    show elemsOf { s with items := s.items.set i (nodeUpdate (elemsOf s) cur) } = elemsOf s
    unfold elemsOf
    rw [List.map_set]
    exact list_set_get?_eq _ _ _ (by rw [List.get?_map, h]; rfl)

theorem nbAt_updateNodeEdges (s : CState) (i : ℕ) (cur : FocusableItem) (d : Dir)
    (h : s.items.get? i = some cur) :
    nbAt (updateNodeEdges s i) i d =
      some ((scanDir (fun e => dirDist d (getItemMetrics cur.elem.rect) (getItemMetrics e.rect))
        (candElems (elemsOf s) cur.elem.id) (nbField d cur)).2) := by
  unfold updateNodeEdges nbAt
  rw [h]
  show ((s.items.set i (nodeUpdate (elemsOf s) cur)).get? i).map (nbField d) = _
  rw [List.get?_set]
  simp only [if_pos rfl, h]
  show some (nbField d (nodeUpdate (elemsOf s) cur)) = _
  rw [nbField_nodeUpdate]

theorem elemsOf_take_updItem (s : CState) (n : ℕ) :
    ((s.items.take n).map (updItem (elemsOf s))).map (fun it => it.elem) =
      (s.items.take n).map (fun it => it.elem) := by
  rw [List.map_map]
  refine List.map_congr_left ?_
  intro it _
  exact elem_updItem _ it

theorem build_go (s : CState) (n : ℕ) (hn : n ≤ s.items.length) :
    (List.range n).foldl buildStep s =
      { s with items := (s.items.take n).map (updItem (elemsOf s)) ++ s.items.drop n } := by
  induction n with
  | zero => simp
  | succ n ih =>
    have hn' : n ≤ s.items.length := Nat.le_of_succ_le hn
    have hlt : n < s.items.length := hn
    rw [List.range_succ, List.foldl_append]
    rw [ih hn']
    set A : List FocusableItem := (s.items.take n).map (updItem (elemsOf s)) with hA
    obtain ⟨itn, hitn⟩ : ∃ a, s.items.get? n = some a := by
      rw [List.get?_eq_get hlt]
      exact ⟨_, rfl⟩
    have hlenA : A.length = n := by
      rw [hA, List.length_map, List.length_take]
      omega
    have hdrop : s.items.drop n = itn :: s.items.drop (n + 1) := by
      rw [List.drop_eq_get_cons hlt]
      congr 1
      have := List.get?_eq_get hlt
      rw [hitn] at this
      exact (Option.some.injEq _ _).mp this.symm
    have hstget : (A ++ s.items.drop n).get? n = some itn := by
      rw [List.get?_append_right (by omega), hlenA, Nat.sub_self, List.get?_drop]
      simpa using hitn
    have hstlen : (A ++ s.items.drop n).length = s.items.length := by
      rw [List.length_append, hlenA, List.length_drop]
      omega
    have hstE : elemsOf { s with items := A ++ s.items.drop n } = elemsOf s := by
      show (A ++ s.items.drop n).map (fun it => it.elem) = _
      rw [List.map_append, hA, elemsOf_take_updItem, ← List.map_append, List.take_append_drop]
      rfl
    have htake : s.items.take (n + 1) = s.items.take n ++ [itn] := by
      rw [List.take_succ]
      congr 1
      rw [← List.get?_eq_getElem?, hitn]
      rfl
    simp only [List.foldl_cons, List.foldl_nil]
    have hgfi : getFocusableItem { s with items := A ++ s.items.drop n } n = some itn := by
      unfold getFocusableItem
      rw [if_neg (by simp only [hstlen]; omega)]
      exact hstget
    simp only [buildStep, hgfi]
    by_cases hfoc : isFocusable itn.elem
    · rw [if_pos hfoc]
      simp only [updateNodeEdges, hstget]
      rw [hstE]
      show ({ s with items := (A ++ s.items.drop n).set n (nodeUpdate (elemsOf s) itn) } : CState) = _
      have : (A ++ s.items.drop n).set n (nodeUpdate (elemsOf s) itn) =
          (s.items.take (n + 1)).map (updItem (elemsOf s)) ++ s.items.drop (n + 1) := by
        have hset := list_set_append_len A itn (nodeUpdate (elemsOf s) itn) (s.items.drop (n + 1))
        rw [hlenA] at hset
        rw [hdrop, hset, htake, List.map_append]
        have hupd : updItem (elemsOf s) itn = nodeUpdate (elemsOf s) itn := by
          unfold updItem
          rw [if_pos hfoc]
        simp [hupd, hA]
      rw [this]
    · rw [if_neg hfoc]
      have : (s.items.take (n + 1)).map (updItem (elemsOf s)) ++ s.items.drop (n + 1) =
          A ++ s.items.drop n := by
        rw [htake, List.map_append, hdrop]
        have : updItem (elemsOf s) itn = itn := by
          unfold updItem
          rw [if_neg hfoc]
        simp [this, hA]
      rw [this]

theorem updateFocusGraph_items (s : CState) :
    updateFocusGraph s = { s with items := s.items.map (updItem (elemsOf s)) } := by
  unfold updateFocusGraph
  rw [build_go s s.items.length le_rfl]
  simp

theorem elemsOf_build (s : CState) : elemsOf (updateFocusGraph s) = elemsOf s := by
  rw [updateFocusGraph_items]
  show (s.items.map (updItem (elemsOf s))).map (fun it => it.elem) = _
  rw [List.map_map]
  refine List.map_congr_left ?_
  intro it _
  exact elem_updItem _ it

theorem nodeUpdate_idem (E : List Element) (it : FocusableItem) :
    nodeUpdate E (nodeUpdate E it) = nodeUpdate E it := by
  obtain ⟨e, t, b, l, r⟩ := it
  simp only [nodeUpdate, scan_idem]

theorem updItem_idem (E : List Element) (it : FocusableItem) :
    updItem E (updItem E it) = updItem E it := by
  unfold updItem
  by_cases h : isFocusable it.elem
  · rw [if_pos h, if_pos (by rw [elem_nodeUpdate]; exact h)]
    exact nodeUpdate_idem E it
  · rw [if_neg h, if_neg h]

/-! ### Angle gate and distance-function facts -/

theorem angleGate_of_pos {x a : ℚ} (b : ℚ) (hx : 0 < x) (ha : 0 ≤ a) :
    angleGate x a b = true := by
  have h1 : atanDegNonneg (jsDiv x a) = true := by
    unfold jsDiv
    by_cases ha0 : a = 0
    · simp [ha0, hx, atanDegNonneg]
    · have hapos : 0 < a := lt_of_le_of_ne ha (Ne.symm ha0)
      simp [ha0, atanDegNonneg, le_of_lt (div_pos hx hapos)]
  have h2 : atanDegLe180 (jsDiv x b) = true := by
    unfold jsDiv
    by_cases hb0 : b = 0
    · simp [hb0, hx, atanDegLe180]
    · simp [hb0, atanDegLe180]
  simp [angleGate, h1, h2]

theorem getRightDistance_of_edge {fm tm : Metrics} (hedge : fm.right ≤ tm.left)
    (hx : 0 < tm.cx - fm.cx) :
    getRightDistance fm tm =
      some (calcDistance (tm.cx - fm.cx)
        ((min (|fm.cy - tm.top|) (min (|fm.cy - tm.cy|) (|fm.cy - tm.bottom|))) * 2)) := by
  unfold getRightDistance
  rw [if_pos hedge]
  show (if angleGate (tm.cx - fm.cx) (|fm.cy - tm.top|) (|fm.cy - tm.bottom|)
      then some (calcDistance (tm.cx - fm.cx)
        ((min (|fm.cy - tm.top|) (min (|fm.cy - tm.cy|) (|fm.cy - tm.bottom|))) * 2))
      else none) = _
  rw [if_pos (angleGate_of_pos _ hx (abs_nonneg _))]

theorem getRightDistance_of_overlap {fm tm : Metrics} (h : tm.left < fm.right) :
    getRightDistance fm tm = none := by
  unfold getRightDistance
  rw [if_neg (not_le.mpr h)]

theorem getRightDistance_some_imp_edge {fm tm : Metrics} {v : ℕ}
    (h : getRightDistance fm tm = some v) : fm.right ≤ tm.left := by
  by_contra hc
  rw [getRightDistance_of_overlap (not_le.mp hc)] at h
  exact absurd h (by simp)

theorem getLeftDistance_of_edge {fm tm : Metrics} (hedge : tm.right ≤ fm.left)
    (hx : 0 < fm.cx - tm.cx) :
    getLeftDistance fm tm =
      some (calcDistance (fm.cx - tm.cx)
        (min (|fm.cy - tm.top|) (min (|fm.cy - tm.cy|) (|fm.cy - tm.bottom|)))) := by
  unfold getLeftDistance
  rw [if_pos hedge]
  show (if angleGate (fm.cx - tm.cx) (|fm.cy - tm.top|) (|fm.cy - tm.bottom|)
      then some (calcDistance (fm.cx - tm.cx)
        (min (|fm.cy - tm.top|) (min (|fm.cy - tm.cy|) (|fm.cy - tm.bottom|))))
      else none) = _
  rw [if_pos (angleGate_of_pos _ hx (abs_nonneg _))]

theorem getLeftDistance_of_no_edge {fm tm : Metrics} (h : fm.left < tm.right) :
    getLeftDistance fm tm = none := by
  unfold getLeftDistance
  rw [if_neg (not_le.mpr h)]

theorem getTopDistance_of_edge {fm tm : Metrics} (hedge : tm.bottom ≤ fm.top)
    (hy : 0 < fm.cy - tm.cy) :
    getTopDistance fm tm =
      some (calcDistance
        (min (|fm.cx - tm.left|) (min (|fm.cx - tm.cx|) (|fm.cx - tm.right|)))
        (fm.cy - tm.cy)) := by
  unfold getTopDistance
  rw [if_pos hedge]
  show (if angleGate (fm.cy - tm.cy) (|fm.cx - tm.left|) (|fm.cx - tm.right|)
      then some (calcDistance
        (min (|fm.cx - tm.left|) (min (|fm.cx - tm.cx|) (|fm.cx - tm.right|)))
        (fm.cy - tm.cy))
      else none) = _
  rw [if_pos (angleGate_of_pos _ hy (abs_nonneg _))]

theorem getTopDistance_of_no_edge {fm tm : Metrics} (h : fm.top < tm.bottom) :
    getTopDistance fm tm = none := by
  unfold getTopDistance
  rw [if_neg (not_le.mpr h)]

theorem getBottomDistance_of_edge {fm tm : Metrics} (hedge : fm.bottom ≤ tm.top)
    (hy : 0 < tm.cy - fm.cy) :
    getBottomDistance fm tm =
      some (calcDistance
        (min (|fm.cx - tm.left|) (min (|fm.cx - tm.cx|) (|fm.cx - tm.right|)))
        (tm.cy - fm.cy)) := by
  unfold getBottomDistance
  rw [if_pos hedge]
  show (if angleGate (tm.cy - fm.cy) (|fm.cx - tm.left|) (|fm.cx - tm.right|)
      then some (calcDistance
        (min (|fm.cx - tm.left|) (min (|fm.cx - tm.cx|) (|fm.cx - tm.right|)))
        (tm.cy - fm.cy))
      else none) = _
  rw [if_pos (angleGate_of_pos _ hy (abs_nonneg _))]

theorem getBottomDistance_of_no_edge {fm tm : Metrics} (h : tm.top < fm.bottom) :
    getBottomDistance fm tm = none := by
  unfold getBottomDistance
  rw [if_neg (not_le.mpr h)]

/-! ### Positive-size rectangles put all offsets strictly forward -/

theorem metrics_cx_lt_right {r : Rect} (h : 0 < r.width) :
    (getItemMetrics r).cx < (getItemMetrics r).right := by
  simp only [getItemMetrics]
  linarith

theorem metrics_left_lt_cx {r : Rect} (h : 0 < r.width) :
    (getItemMetrics r).left < (getItemMetrics r).cx := by
  simp only [getItemMetrics]
  linarith

theorem metrics_cy_lt_bottom {r : Rect} (h : 0 < r.height) :
    (getItemMetrics r).cy < (getItemMetrics r).bottom := by
  simp only [getItemMetrics]
  linarith

theorem metrics_top_lt_cy {r : Rect} (h : 0 < r.height) :
    (getItemMetrics r).top < (getItemMetrics r).cy := by
  simp only [getItemMetrics]
  linarith

/-! ### `Math.floor(Math.sqrt q)` equals `Nat.sqrt ⌊q⌋` for `0 ≤ q` -/

theorem natfloor_sqrt_rat (q : ℚ) (hq : 0 ≤ q) :
    ⌊Real.sqrt (q : ℝ)⌋₊ = Nat.sqrt q.floor.toNat := by
  have hq' : (0 : ℝ) ≤ (q : ℝ) := by exact_mod_cast hq
  have hfl : (0 : ℤ) ≤ ⌊q⌋ := Int.floor_nonneg.mpr hq
  apply le_antisymm
  · rw [Nat.le_sqrt]
    set n := ⌊Real.sqrt (q : ℝ)⌋₊ with hn
    have h1 : (n : ℝ) ≤ Real.sqrt (q : ℝ) := Nat.floor_le (Real.sqrt_nonneg _)
    have h2 : ((n * n : ℕ) : ℝ) ≤ (q : ℝ) := by
      push_cast
      nlinarith [Real.sq_sqrt hq', Real.sqrt_nonneg (q : ℝ)]
    have h3 : ((n * n : ℕ) : ℚ) ≤ q := by exact_mod_cast h2
    have h4 : ((n * n : ℕ) : ℤ) ≤ ⌊q⌋ := Int.le_floor.mpr (by exact_mod_cast h3)
    show n * n ≤ (⌊q⌋).toNat
    omega
  · set m := (⌊q⌋).toNat with hm
    have h1 : Nat.sqrt m * Nat.sqrt m ≤ m := Nat.sqrt_le m
    have hmz : ((m : ℕ) : ℤ) = ⌊q⌋ := by
      rw [hm]
      exact Int.toNat_of_nonneg hfl
    have h2 : ((m : ℚ)) ≤ q := by
      have hle : ((⌊q⌋ : ℚ)) ≤ q := Int.floor_le q
      have : ((m : ℕ) : ℚ) = ((⌊q⌋ : ℚ)) := by exact_mod_cast congrArg (fun z : ℤ => (z : ℚ)) hmz
      rw [this]
      exact hle
    have h3 : ((Nat.sqrt m : ℝ)) ^ 2 ≤ (q : ℝ) := by
      have hmq : ((m : ℝ)) ≤ (q : ℝ) := by exact_mod_cast h2
      have : ((Nat.sqrt m * Nat.sqrt m : ℕ) : ℝ) ≤ (m : ℝ) := by exact_mod_cast h1
      push_cast at this
      nlinarith
    have h4 : ((Nat.sqrt m : ℝ)) ≤ Real.sqrt (q : ℝ) :=
      (@Real.le_sqrt (Nat.sqrt m : ℝ) (q : ℝ) (Nat.cast_nonneg _) hq').mpr h3
    exact Nat.le_floor h4

theorem calcDistance_eq_floor_sqrt (x y : ℚ) :
    ⌊Real.sqrt ((x : ℝ) ^ 2 + (y : ℝ) ^ 2)⌋₊ = calcDistance x y := by
  have hq : (0 : ℚ) ≤ x * x + y * y :=
    add_nonneg (mul_self_nonneg x) (mul_self_nonneg y)
  have hcast : ((x : ℝ)) ^ 2 + ((y : ℝ)) ^ 2 = (((x * x + y * y : ℚ)) : ℝ) := by
    push_cast
    ring
  rw [hcast, natfloor_sqrt_rat _ hq]
  rfl

/-! ### Idempotence of the full graph build -/

/-- C8: for any item set with fixed geometry and eligibility, running the
graph build twice in succession yields exactly the same state — in particular
the same four neighbor assignments on every item — as running it once. -/
theorem c8_build_idempotent (s : CState) :
    updateFocusGraph (updateFocusGraph s) = updateFocusGraph s := by
  have h1 := updateFocusGraph_items s
  have h2 := updateFocusGraph_items (updateFocusGraph s)
  rw [h2, elemsOf_build, h1]
  show ({ s with items := (s.items.map (updItem (elemsOf s))).map (updItem (elemsOf s)) } : CState)
      = { s with items := s.items.map (updItem (elemsOf s)) }
  rw [List.map_map]
  congr 1
  refine List.map_congr_left ?_
  intro it _
  exact updItem_idem (elemsOf s) it

theorem scanDir_snd_none {α : Type} (dist : α → Option ℕ) (cands : List (ℕ × α))
    (old : Option ℕ) (h : firstMinD dist cands = none) :
    (scanDir dist cands old).2 = old := by
  rw [scanDir_snd, h]

theorem scanDir_snd_some {α : Type} (dist : α → Option ℕ) (cands : List (ℕ × α))
    (old : Option ℕ) (jm : ℕ × ℕ) (h : firstMinD dist cands = some jm) :
    (scanDir dist cands old).2 = some jm.1 := by
  rw [scanDir_snd, h]

/-! ### C9 -/

/-- The function `moveFocus` returns immediately when `currentlyFocusedItem` is null. -/
theorem moveFocus_of_focused_none (s : CState) (direction : Direction)
    (h : s.focused = none) : moveFocus s direction = s := by
  unfold moveFocus
  rw [h]

/-- C9: in every session in which nothing is currently focused — whatever the
item list, including the empty one — `moveFocus` in any direction returns the
state unchanged: no focus change, no appended notification, no failure. -/
theorem c9_moveFocus_unfocused_noop (s : CState) (direction : Direction)
    (h : s.focused = none) : moveFocus s direction = s :=
  moveFocus_of_focused_none s direction h

theorem c9_witness :
    (CState.mk [] none []).focused = none ∧
    moveFocus (CState.mk [] none []) ⟨1, 0⟩ = CState.mk [] none [] :=
  ⟨rfl, c9_moveFocus_unfocused_noop (CState.mk [] none []) ⟨1, 0⟩ rfl⟩

/-! ### C2 -/

/-- C2 is false: `setCurrentFocusItem` with an out-of-range index does not
leave the focused item unchanged — it overwrites `currentlyFocusedItem` with
the `null` lookup result, clearing the focus. -/
theorem c2_counterexample :
    c2state.focused = some 0 ∧
    (setCurrentFocusItem c2state 5).focused = none ∧
    (setCurrentFocusItem c2state 5).focused ≠ c2state.focused := by with_unfolding_all decide

/-- C2 amended: `setCurrentFocusItem` with an out-of-range index sets the
currently focused item to none (clearing any previous focus) and emits no
focus-changed notification; the rest of the state is untouched. -/
theorem c2_amended_invalid_index_clears_focus (s : CState) (idx : ℕ)
    (h : s.items.length ≤ idx) :
    setCurrentFocusItem s idx = { s with focused := none } := by
  unfold setCurrentFocusItem getFocusableItem
  rw [if_pos (show idx ≥ s.items.length from h)]

theorem c2_amended_witness :
    setCurrentFocusItem c2state 5 = { c2state with focused := none } :=
  c2_amended_invalid_index_clears_focus c2state 5 (by with_unfolding_all decide)

/-! ### C3 -/

/-- C3 is false in its return-value part: `addFocusableItem` ends in a bare
`return` on both paths, so it returns `undefined` — never `true` for a new
registration and never `false` for a duplicate one. -/
theorem c3_counterexample :
    (addFocusableItem c3empty exItemA).2 ≠ JSVal.bool true ∧
    (addFocusableItem (addFocusableItem c3empty exItemA).1 exItemA).2 ≠ JSVal.bool false ∧
    getFocusableItemCount (addFocusableItem (addFocusableItem c3empty exItemA).1 exItemA).1 =
      getFocusableItemCount (addFocusableItem c3empty exItemA).1 := by with_unfolding_all decide

/-- C3 amended: re-registering an already-present item (identity-based) is a
complete no-op and registering a new item appends it, growing the count by
one — but the return value is `undefined` in both cases, so it does not
report whether the item was newly added. -/
theorem c3_amended_register (s : CState) (item : FocusableItem) :
    (isFocusableItemFn s item = true →
      addFocusableItem s item = (s, JSVal.undef)) ∧
    (isFocusableItemFn s item = false →
      (addFocusableItem s item).1.items = s.items ++ [item] ∧
      getFocusableItemCount (addFocusableItem s item).1 = getFocusableItemCount s + 1 ∧
      (addFocusableItem s item).2 = JSVal.undef) := by
  constructor
  · intro h
    unfold addFocusableItem
    rw [if_pos h]
  · intro h
    unfold addFocusableItem
    rw [if_neg (by rw [h]; exact Bool.false_ne_true)]
    exact ⟨rfl, by simp [getFocusableItemCount, pushFocusableItem], rfl⟩

theorem c3_amended_witness :
    addFocusableItem (addFocusableItem c3empty exItemA).1 exItemA =
      ((addFocusableItem c3empty exItemA).1, JSVal.undef) ∧
    (addFocusableItem c3empty exItemA).1.items = c3empty.items ++ [exItemA] :=
  ⟨(c3_amended_register (addFocusableItem c3empty exItemA).1 exItemA).1 (by with_unfolding_all decide),
   ((c3_amended_register c3empty exItemA).2 (by with_unfolding_all decide)).1⟩

/-! ### C4 -/

/-- C4: an item whose left edge lies strictly before the source's right edge
can never be assigned as the source's right neighbor.  Part one: such a pair
has a null right distance.  Part two: after an edge update, the right field
is either untouched (retained from before) or points at a candidate whose
left edge is at or beyond the source's right edge. -/
theorem c4_right_requires_forward_gap :
    (∀ fm tm : Metrics, tm.left < fm.right → getRightDistance fm tm = none) ∧
    (∀ (s : CState) (i : ℕ) (cur : FocusableItem) (r : Option ℕ),
      s.items.get? i = some cur →
      nbAt (updateNodeEdges s i) i Dir.right = some r →
      r = cur.rightIndex ∨
        ∃ k e, r = some k ∧ (k, e) ∈ candElems (elemsOf s) cur.elem.id ∧
          (getItemMetrics cur.elem.rect).right ≤ (getItemMetrics e.rect).left) := by
  constructor
  · intro fm tm h
    exact getRightDistance_of_overlap h
  · intro s i cur r hcur hnb
    rw [nbAt_updateNodeEdges s i cur Dir.right hcur] at hnb
    have hr := Option.some_inj.mp hnb
    cases hfm : firstMinD
        (fun e => dirDist Dir.right (getItemMetrics cur.elem.rect) (getItemMetrics e.rect))
        (candElems (elemsOf s) cur.elem.id) with
    | none =>
      left
      rw [scanDir_snd_none _ _ _ hfm] at hr
      exact hr.symm
    | some jm =>
      right
      rw [scanDir_snd_some _ _ _ _ hfm] at hr
      obtain ⟨j, dv⟩ := jm
      obtain ⟨e, pre, suf, hsplit, hde, hpre, hmin⟩ := firstMinD_spec _ _ j dv hfm
      refine ⟨j, e, hr.symm, ?_, ?_⟩
      · rw [hsplit]
        simp
      · exact getRightDistance_some_imp_edge hde

theorem c4_witness :
    getRightDistance (getItemMetrics exRectB) (getItemMetrics exRectA) = none ∧
    ((some 1 : Option ℕ) = exItemA.rightIndex ∨
      ∃ k e, (some 1 : Option ℕ) = some k ∧ (k, e) ∈ candElems (elemsOf c4state) exItemA.elem.id ∧
        (getItemMetrics exItemA.elem.rect).right ≤ (getItemMetrics e.rect).left) :=
  ⟨c4_right_requires_forward_gap.1 (getItemMetrics exRectB) (getItemMetrics exRectA) (by with_unfolding_all decide),
   c4_right_requires_forward_gap.2 c4state 0 exItemA (some 1) (by with_unfolding_all decide) (by with_unfolding_all decide)⟩

/-! ### C5 -/

/-- C5: whenever at least one candidate has a non-null distance in a
direction, the edge update stores the index of a candidate with minimal
distance for that direction, and that candidate is the earliest one (in
iteration order) attaining the minimum: every strictly earlier candidate has
a strictly larger (or null) distance. -/
theorem c5_nearest_first_min (s : CState) (i : ℕ) (cur : FocusableItem) (d : Dir)
    (hcur : s.items.get? i = some cur)
    (hne : ∃ c ∈ candElems (elemsOf s) cur.elem.id,
      dirDist d (getItemMetrics cur.elem.rect) (getItemMetrics c.2.rect) ≠ none) :
    ∃ k e dk pre suf,
      nbAt (updateNodeEdges s i) i d = some (some k) ∧
      candElems (elemsOf s) cur.elem.id = pre ++ (k, e) :: suf ∧
      dirDist d (getItemMetrics cur.elem.rect) (getItemMetrics e.rect) = some dk ∧
      (∀ c ∈ candElems (elemsOf s) cur.elem.id, ∀ dc,
        dirDist d (getItemMetrics cur.elem.rect) (getItemMetrics c.2.rect) = some dc →
          dk ≤ dc) ∧
      (∀ c ∈ pre, ∀ dc,
        dirDist d (getItemMetrics cur.elem.rect) (getItemMetrics c.2.rect) = some dc →
          dk < dc) := by
  have hfm : firstMinD
      (fun e => dirDist d (getItemMetrics cur.elem.rect) (getItemMetrics e.rect))
      (candElems (elemsOf s) cur.elem.id) ≠ none := by
    intro hnone
    obtain ⟨c, hc, hcd⟩ := hne
    exact hcd ((firstMinD_eq_none_iff _ _).mp hnone c hc)
  obtain ⟨⟨j, dv⟩, hjm⟩ := Option.ne_none_iff_exists'.mp hfm
  obtain ⟨e, pre, suf, hsplit, hde, hpre, hmin⟩ := firstMinD_spec _ _ j dv hjm
  refine ⟨j, e, dv, pre, suf, ?_, hsplit, hde, hmin, hpre⟩
  rw [nbAt_updateNodeEdges s i cur d hcur, scanDir_snd_some _ _ _ _ hjm]

theorem c5_witness :
    ∃ k e dk pre suf,
      nbAt (updateNodeEdges c4state 0) 0 Dir.right = some (some k) ∧
      candElems (elemsOf c4state) exItemA.elem.id = pre ++ (k, e) :: suf ∧
      dirDist Dir.right (getItemMetrics exItemA.elem.rect) (getItemMetrics e.rect) = some dk ∧
      (∀ c ∈ candElems (elemsOf c4state) exItemA.elem.id, ∀ dc,
        dirDist Dir.right (getItemMetrics exItemA.elem.rect) (getItemMetrics c.2.rect) = some dc →
          dk ≤ dc) ∧
      (∀ c ∈ pre, ∀ dc,
        dirDist Dir.right (getItemMetrics exItemA.elem.rect) (getItemMetrics c.2.rect) = some dc →
          dk < dc) :=
  c5_nearest_first_min c4state 0 exItemA Dir.right (by with_unfolding_all decide) (by with_unfolding_all decide)

/-! ### C7 -/

/-- C7 is false: in `c7moved`, item 0's only eligible candidate yields a null
distance in every direction, yet after the rebuild item 0 still has a right
neighbor — the stale index from the earlier build is retained, not cleared
to null. -/
theorem c7_counterexample :
    candElems (elemsOf c7moved) 0 = [(1, { exElemB with rect := c7rectB2 })] ∧
    getTopDistance (getItemMetrics exRectA) (getItemMetrics c7rectB2) = none ∧
    getBottomDistance (getItemMetrics exRectA) (getItemMetrics c7rectB2) = none ∧
    getLeftDistance (getItemMetrics exRectA) (getItemMetrics c7rectB2) = none ∧
    getRightDistance (getItemMetrics exRectA) (getItemMetrics c7rectB2) = none ∧
    nbAt c7after 0 Dir.right = some (some 1) := by with_unfolding_all decide

/-- C7 amended: when every candidate's distance is null in a direction, the
edge update leaves that direction's neighbor field unchanged — it is null
after the build only if it was already null before (e.g. on the first build
of a fresh item); a neighbor stored by an earlier build is retained. -/
theorem c7_amended_no_candidate_keeps_old (s : CState) (i : ℕ) (cur : FocusableItem) (d : Dir)
    (hcur : s.items.get? i = some cur)
    (hall : ∀ c ∈ candElems (elemsOf s) cur.elem.id,
      dirDist d (getItemMetrics cur.elem.rect) (getItemMetrics c.2.rect) = none) :
    nbAt (updateNodeEdges s i) i d = some (nbField d cur) := by
  rw [nbAt_updateNodeEdges s i cur d hcur,
    scanDir_snd_none _ _ _ ((firstMinD_eq_none_iff _ _).mpr hall)]

theorem c7_amended_witness :
    nbAt (updateNodeEdges c7moved 0) 0 Dir.right = some (nbField Dir.right c7curA) :=
  c7_amended_no_candidate_keeps_old c7moved 0 c7curA Dir.right (by with_unfolding_all decide) (by with_unfolding_all decide)

/-! ### C10 -/

/-- C10: for rectangles of positive width and height, whenever a direction's
forward edge-ordering test passes, the forward offset fed to both arctangent
quotients is strictly positive, so the first angle is at least 0 and the
second at most 180 (arctangent stays within plus or minus 90 degrees, with
division by zero giving plus infinity, i.e. 90 degrees); hence each
directional distance is non-null exactly when the edge test passes — the
angle gate never rejects a candidate. -/
theorem c10_gate_never_rejects (rA rB : Rect)
    (hwA : 0 < rA.width) (hhA : 0 < rA.height) (hwB : 0 < rB.width) (hhB : 0 < rB.height) :
    (getRightDistance (getItemMetrics rA) (getItemMetrics rB) ≠ none ↔
      (getItemMetrics rA).right ≤ (getItemMetrics rB).left) ∧
    (getLeftDistance (getItemMetrics rA) (getItemMetrics rB) ≠ none ↔
      (getItemMetrics rB).right ≤ (getItemMetrics rA).left) ∧
    (getTopDistance (getItemMetrics rA) (getItemMetrics rB) ≠ none ↔
      (getItemMetrics rB).bottom ≤ (getItemMetrics rA).top) ∧
    (getBottomDistance (getItemMetrics rA) (getItemMetrics rB) ≠ none ↔
      (getItemMetrics rA).bottom ≤ (getItemMetrics rB).top) := by
  refine ⟨⟨?_, ?_⟩, ⟨?_, ?_⟩, ⟨?_, ?_⟩, ⟨?_, ?_⟩⟩
  · intro hne
    by_contra hlt
    rw [getRightDistance_of_overlap (not_le.mp hlt)] at hne
    exact hne rfl
  · intro hedge
    have h1 := metrics_cx_lt_right hwA
    have h2 := metrics_left_lt_cx hwB
    rw [getRightDistance_of_edge hedge (by linarith)]
    simp
  · intro hne
    by_contra hlt
    rw [getLeftDistance_of_no_edge (not_le.mp hlt)] at hne
    exact hne rfl
  · intro hedge
    have h1 := metrics_cx_lt_right hwB
    have h2 := metrics_left_lt_cx hwA
    rw [getLeftDistance_of_edge hedge (by linarith)]
    simp
  · intro hne
    by_contra hlt
    rw [getTopDistance_of_no_edge (not_le.mp hlt)] at hne
    exact hne rfl
  · intro hedge
    have h1 := metrics_cy_lt_bottom hhB
    have h2 := metrics_top_lt_cy hhA
    rw [getTopDistance_of_edge hedge (by linarith)]
    simp
  · intro hne
    by_contra hlt
    rw [getBottomDistance_of_no_edge (not_le.mp hlt)] at hne
    exact hne rfl
  · intro hedge
    have h1 := metrics_cy_lt_bottom hhA
    have h2 := metrics_top_lt_cy hhB
    rw [getBottomDistance_of_edge hedge (by linarith)]
    simp

theorem c10_witness :
    (0 : ℚ) < exRectA.width ∧
    (getRightDistance (getItemMetrics exRectA) (getItemMetrics exRectB) ≠ none ↔
      (getItemMetrics exRectA).right ≤ (getItemMetrics exRectB).left) :=
  ⟨by with_unfolding_all decide,
   (c10_gate_never_rejects exRectA exRectB (by with_unfolding_all decide)
      (by with_unfolding_all decide) (by with_unfolding_all decide)
      (by with_unfolding_all decide)).1⟩

/-! ### C6 -/

/-- C6 is false for degenerate (zero-size) rectangles: two zero-size boxes at
the same point pass the right edge test, the claimed formula gives
`floor (sqrt 0) = 0`, but the code returns null — the gate's `0 / 0`
division yields `NaN`, whose comparisons are false. -/
theorem c6_counterexample :
    (getItemMetrics c6zero).right ≤ (getItemMetrics c6zero).left ∧
    (⌊Real.sqrt
      ((((getItemMetrics c6zero).cx - (getItemMetrics c6zero).cx : ℚ) : ℝ) ^ 2 +
        (((min (|(getItemMetrics c6zero).cy - (getItemMetrics c6zero).top|)
            (min (|(getItemMetrics c6zero).cy - (getItemMetrics c6zero).cy|)
              (|(getItemMetrics c6zero).cy - (getItemMetrics c6zero).bottom|)) * 2 : ℚ)) : ℝ) ^ 2)⌋₊
      = 0) ∧
    getRightDistance (getItemMetrics c6zero) (getItemMetrics c6zero) = none ∧
    getRightDistance (getItemMetrics c6zero) (getItemMetrics c6zero) ≠ some 0 := by
  refine ⟨by with_unfolding_all decide, ?_, by with_unfolding_all decide,
    by with_unfolding_all decide⟩
  rw [calcDistance_eq_floor_sqrt]
  with_unfolding_all decide

/-- C6 amended: restricted to rectangles of positive width and height (which
keeps the angle gate's divisions away from `0 / 0`), a pair passing the right
edge test gets distance `floor (sqrt (dx^2 + dy^2))` with
`dy = 2 * min (|A.cy - B.top|) (min (|A.cy - B.cy|) (|A.cy - B.bottom|))`,
and a pair passing the left edge test gets the same formula with the vertical
minimum unweighted — the doubling applies to right moves only. -/
theorem c6_distance_formula (rA rB : Rect)
    (hwA : 0 < rA.width) (hhA : 0 < rA.height) (hwB : 0 < rB.width) (hhB : 0 < rB.height) :
    ((getItemMetrics rA).right ≤ (getItemMetrics rB).left →
      getRightDistance (getItemMetrics rA) (getItemMetrics rB) =
        some ⌊Real.sqrt
          ((((getItemMetrics rB).cx - (getItemMetrics rA).cx : ℚ) : ℝ) ^ 2 +
            (((min (|(getItemMetrics rA).cy - (getItemMetrics rB).top|)
                (min (|(getItemMetrics rA).cy - (getItemMetrics rB).cy|)
                  (|(getItemMetrics rA).cy - (getItemMetrics rB).bottom|)) * 2 : ℚ)) : ℝ) ^ 2)⌋₊) ∧
    ((getItemMetrics rB).right ≤ (getItemMetrics rA).left →
      getLeftDistance (getItemMetrics rA) (getItemMetrics rB) =
        some ⌊Real.sqrt
          ((((getItemMetrics rA).cx - (getItemMetrics rB).cx : ℚ) : ℝ) ^ 2 +
            (((min (|(getItemMetrics rA).cy - (getItemMetrics rB).top|)
                (min (|(getItemMetrics rA).cy - (getItemMetrics rB).cy|)
                  (|(getItemMetrics rA).cy - (getItemMetrics rB).bottom|)) : ℚ)) : ℝ) ^ 2)⌋₊) := by
  constructor
  · intro hedge
    have h1 := metrics_cx_lt_right hwA
    have h2 := metrics_left_lt_cx hwB
    rw [getRightDistance_of_edge hedge (by linarith), ← calcDistance_eq_floor_sqrt]
  · intro hedge
    have h1 := metrics_cx_lt_right hwB
    have h2 := metrics_left_lt_cx hwA
    rw [getLeftDistance_of_edge hedge (by linarith), ← calcDistance_eq_floor_sqrt]

theorem c6_witness :
    getRightDistance (getItemMetrics exRectA) (getItemMetrics exRectB) =
      some ⌊Real.sqrt
        ((((getItemMetrics exRectB).cx - (getItemMetrics exRectA).cx : ℚ) : ℝ) ^ 2 +
          (((min (|(getItemMetrics exRectA).cy - (getItemMetrics exRectB).top|)
              (min (|(getItemMetrics exRectA).cy - (getItemMetrics exRectB).cy|)
                (|(getItemMetrics exRectA).cy - (getItemMetrics exRectB).bottom|)) * 2 : ℚ)) : ℝ) ^ 2)⌋₊ :=
  (c6_distance_formula exRectA exRectB (by with_unfolding_all decide)
    (by with_unfolding_all decide) (by with_unfolding_all decide)
    (by with_unfolding_all decide)).1 (by with_unfolding_all decide)

/-! ### C1 -/

theorem setAllRects_focused (s : CState) (f : ℕ → Rect) :
    (setAllRects s f).focused = s.focused := rfl

theorem setAllRects_items (s : CState) (f : ℕ → Rect) :
    (setAllRects s f).items =
      s.items.map (fun it => { it with elem := { it.elem with rect := f it.elem.id } }) := rfl

theorem setCurrentFocusItem_setAllRects (s : CState) (f : ℕ → Rect) (idx : ℕ) :
    setCurrentFocusItem (setAllRects s f) idx = setAllRects (setCurrentFocusItem s idx) f := by
  unfold setCurrentFocusItem getFocusableItem
  rw [setAllRects_items, List.length_map, List.get?_map]
  by_cases h : idx ≥ s.items.length
  · rw [if_pos h, if_pos h]
    rfl
  · rw [if_neg h, if_neg h]
    cases hg : s.items.get? idx with
    | none => rfl
    | some it => rfl

set_option maxHeartbeats 4000000 in
/-- C1 is false: the source's `moveFocus` does not rebuild the navigation
graph before the lookup.  In `c1state` the stored right neighbor of the
focused item is index 2 (from an earlier layout), while a rebuild on the
current geometry chooses index 1; `moveFocus` nevertheless focuses item 2. -/
theorem c1_counterexample :
    c1state.focused = some 0 ∧
    (moveFocus c1state ⟨1, 0⟩).focused = some 2 ∧
    (moveFocusRebuildSpec c1state ⟨1, 0⟩).focused = some 1 ∧
    moveFocus c1state ⟨1, 0⟩ ≠ moveFocusRebuildSpec c1state ⟨1, 0⟩ := by
  with_unfolding_all decide

/-- Reduction of `moveFocus` when an item is focused (the source's main
path): look up the object, read the stored neighbor index for the direction,
and either stop or focus it. -/
theorem moveFocus_some (s : CState) (direction : Direction) (fid : ℕ)
    (h : s.focused = some fid) :
    moveFocus s direction =
      match s.items.find? (fun it => it.elem.id == fid) with
      | none => s
      | some cur =>
        match (if direction.y = 0 then
            if direction.x > 0 then cur.rightIndex else cur.leftIndex
          else if direction.x = 0 then
            if direction.y > 0 then cur.topIndex else cur.bottomIndex
          else none : Option ℕ) with
        | none => s
        | some idx => setCurrentFocusItem s idx := by
  unfold moveFocus
  rw [h]

/-- C1 amended: `moveFocus` consults only the neighbor indices stored on the
focused item by the most recent explicit graph build; it commutes with an
arbitrary re-layout of every item's rectangle, so the chosen target reflects
the geometry as of the last build, not the geometry at the time of the
move. -/
theorem c1_moveFocus_ignores_geometry (s : CState) (f : ℕ → Rect) (direction : Direction) :
    moveFocus (setAllRects s f) direction = setAllRects (moveFocus s direction) f := by
  cases hf : s.focused with
  | none =>
    rw [moveFocus_of_focused_none s direction hf]
    exact moveFocus_of_focused_none (setAllRects s f) direction hf
  | some fid =>
    rw [moveFocus_some (setAllRects s f) direction fid hf, moveFocus_some s direction fid hf]
    rw [setAllRects_items, List.find?_map]
    have hpred : ((fun it : FocusableItem => it.elem.id == fid) ∘
        (fun it : FocusableItem => { it with elem := { it.elem with rect := f it.elem.id } }))
        = (fun it : FocusableItem => it.elem.id == fid) := rfl
    rw [hpred]
    cases hfind : s.items.find? (fun it => it.elem.id == fid) with
    | none => rfl
    | some cur =>
      show (match (if direction.y = 0 then
              if direction.x > 0 then cur.rightIndex else cur.leftIndex
            else if direction.x = 0 then
              if direction.y > 0 then cur.topIndex else cur.bottomIndex
            else none : Option ℕ) with
        | none => setAllRects s f
        | some idx => setCurrentFocusItem (setAllRects s f) idx) =
        setAllRects (match (if direction.y = 0 then
              if direction.x > 0 then cur.rightIndex else cur.leftIndex
            else if direction.x = 0 then
              if direction.y > 0 then cur.topIndex else cur.bottomIndex
            else none : Option ℕ) with
        | none => s
        | some idx => setCurrentFocusItem s idx) f
      cases hni : (if direction.y = 0 then
              if direction.x > 0 then cur.rightIndex else cur.leftIndex
            else if direction.x = 0 then
              if direction.y > 0 then cur.topIndex else cur.bottomIndex
            else none : Option ℕ) with
      | none => rfl
      | some idx => exact setCurrentFocusItem_setAllRects s f idx
